import Mathlib

/-!
Verification of the queuectl background job queue (queuectl.py) against its
natural-language specification.

The embedding models the SQLite `jobs` table as a `List Job`, the `kv` config
table as a `List (String × String)`, UTC timestamps as integers (ISO-8601 UTC
strings compare consistently with time order), and Python exceptions as
`Except String`.  Adjacent `now_utc()` calls inside one operation are modelled
as a single clock reading `now`, exactly as the spec words them
("finished_at=now, updated_at=now").
-/

namespace QueueCtl

/-- Module-level constant `DEFAULT_MAX_RETRIES = 3` (queuectl.py line 40). -/
def DEFAULT_MAX_RETRIES : Nat := 3

/-- Module-level constant `DEFAULT_BACKOFF_BASE = 2` (queuectl.py line 41). -/
def DEFAULT_BACKOFF_BASE : Int := 2

/-- Decimal digit test on a character, via its code point. -/
def isDigitChar (c : Char) : Bool := 48 ≤ c.toNat && c.toNat ≤ 57

/-- Numeric value of a list of decimal digits, most significant first. -/
def digitsToNat (l : List Char) : Nat := l.foldl (fun acc c => acc * 10 + (c.toNat - 48)) 0

/-- Whitespace test for the characters Python's str.strip removes (the forms
that occur in this program's data: space, tab, newline, carriage return). -/
def isSpaceChar (c : Char) : Bool := c = ' ' || c = '\t' || c = '\n' || c = '\r'

/-- Remove leading and trailing whitespace from a character list. -/
def stripList (l : List Char) : List Char :=
  ((l.dropWhile isSpaceChar).reverse.dropWhile isSpaceChar).reverse

/-- Model of Python `str.strip()` as used on stderr text (queuectl.py line 226). -/
def strip (s : String) : String := String.mk (stripList s.toList)

/-- Model of Python `int(s)` on a string: optional surrounding whitespace, an
optional sign, then one or more decimal digits; any other shape raises
`ValueError` (modelled as `none`). -/
def pyInt (s : String) : Option Int :=
  let t := stripList s.toList
  let signDigits : Int × List Char :=
    match t with
    | '-' :: rest => (-1, rest)
    | '+' :: rest => (1, rest)
    | l => (1, l)
  if signDigits.2.isEmpty then none
  else if signDigits.2.all isDigitChar then some (signDigits.1 * digitsToNat signDigits.2)
  else none

/-- A row of the `jobs` table (queuectl.py lines 62-80).  `state` is stored as
TEXT; timestamps are integers standing for the ISO strings; nullable columns
are `Option`. -/
structure Job where
  id : String
  command : String
  state : String
  attempts : Nat
  max_retries : Nat
  created_at : Int
  updated_at : Int
  available_at : Int
  priority : Int
  run_timeout : Option Int
  worker_id : Option String
  started_at : Option Int
  finished_at : Option Int
  last_error : Option String
  output : Option String
deriving DecidableEq

/-- The job-specification dictionary accepted by `enqueue_job` (queuectl.py
lines 114-126): any key the code reads may be present (`some`) or absent
(`none`).  The code also honours caller-supplied `state` and `attempts`. -/
structure JobSpec where
  id : Option String := none
  command : String
  state : Option String := none
  attempts : Option Nat := none
  max_retries : Option Nat := none
  created_at : Option Int := none
  updated_at : Option Int := none
  available_at : Option Int := none
  priority : Option Int := none
  timeout : Option Int := none
  run_timeout : Option Int := none
deriving DecidableEq

/-- Python truthiness of an optional integer: `None` and `0` are falsy. -/
def pyTruthy : Option Int → Bool
  | none => false
  | some n => n ≠ 0

/-- Python `a or b` on optional integers: `b` when `a` is falsy, else `a`. -/
def pyOr (a b : Option Int) : Option Int := if pyTruthy a then a else b

/-- Model of `enqueue_job(job)` (queuectl.py lines 114-138): apply the `setdefault`
defaults (`id` from a fresh uuid, `state='pending'`, `attempts=0`,
`max_retries=DEFAULT_MAX_RETRIES`, `created_at=now`, `updated_at=created_at`,
`available_at=created_at`, `priority=0`,
`run_timeout = job.get("timeout") or job.get("run_timeout") or None`)
and insert the row; returns the new table and the job id. -/
def enqueue_job (spec : JobSpec) (freshId : String) (now : Int) (jobs : List Job) :
    List Job × String :=
  let id := spec.id.getD freshId
  let state := spec.state.getD "pending"
  let attempts := spec.attempts.getD 0
  let max_retries := spec.max_retries.getD DEFAULT_MAX_RETRIES
  let created_at := spec.created_at.getD now
  let updated_at := spec.updated_at.getD created_at
  let available_at := spec.available_at.getD created_at
  let priority := spec.priority.getD 0
  let run_timeout := pyOr (pyOr spec.timeout spec.run_timeout) none
  (jobs ++ [{ id := id, command := spec.command, state := state, attempts := attempts,
              max_retries := max_retries, created_at := created_at, updated_at := updated_at,
              available_at := available_at, priority := priority, run_timeout := run_timeout,
              worker_id := none, started_at := none, finished_at := none,
              last_error := none, output := none }], id)

/-- Model of `get_config(conn, key, default)` (queuectl.py lines 104-106): the stored
value when the key exists, the default otherwise. -/
def get_config (kv : List (String × String)) (key default : String) : String :=
  match kv.find? (fun p => p.1 == key) with
  | some p => p.2
  | none => default

/-- Model of `set_config(conn, key, value)` (queuectl.py lines 108-112): upsert. -/
def set_config (kv : List (String × String)) (key value : String) :
    List (String × String) :=
  if kv.any (fun p => p.1 == key) then
    kv.map (fun p => if p.1 == key then (key, value) else p)
  else
    kv ++ [(key, value)]

/-- The `kv` table after `init_db()` on a fresh database (queuectl.py
lines 96-98). -/
def initial_config : List (String × String) :=
  [("max_retries_default", "3"), ("backoff_base", "2"), ("poll_idle_secs", "0.5")]

/-- Model of `compute_backoff_delay(base, attempts) = int(pow(base, attempts))`
(queuectl.py lines 140-141); for an integer base and a non-negative integer
exponent this is integer exponentiation. -/
def compute_backoff_delay (base : Int) (attempts : Nat) : Int := base ^ attempts

/-- Apply `f` to every row whose id matches: the effect of
`UPDATE jobs SET ... WHERE id=?`. -/
def updateById (jobs : List Job) (id : String) (f : Job → Job) : List Job :=
  jobs.map (fun j => if j.id = id then f j else j)

/-- Model of `finish_job_success(conn, job_id, output)` (queuectl.py lines 172-176). -/
def finish_job_success (jobs : List Job) (job_id : String) (output : String) (now : Int) :
    List Job :=
  updateById jobs job_id (fun j =>
    { j with state := "completed", finished_at := some now, updated_at := now,
             output := some output })

/-- Model of `finish_job_failure(conn, job, error)` (queuectl.py lines 178-193).
`job` is the caller's row snapshot.  `base = int(get_config(conn,
"backoff_base", str(DEFAULT_BACKOFF_BASE)))` — the string default `"2"` is
used only when the key is absent, and `int()` on an unparseable stored value
raises `ValueError` (the `Except.error` branch).  The updates touch exactly
the columns named in the two SQL statements. -/
def finish_job_failure (kv : List (String × String)) (jobs : List Job) (job : Job)
    (error : String) (now : Int) : Except String (List Job) :=
  let attempts := job.attempts + 1
  match pyInt (get_config kv "backoff_base" "2") with
  | none => Except.error "ValueError: invalid literal for int with base 10"
  | some base =>
    let delay := compute_backoff_delay base attempts
    if attempts > job.max_retries then
      Except.ok (updateById jobs job.id (fun j =>
        { j with state := "dead", attempts := attempts, finished_at := some now,
                 updated_at := now, last_error := some error }))
    else
      Except.ok (updateById jobs job.id (fun j =>
        { j with state := "pending", attempts := attempts, available_at := now + delay,
                 updated_at := now, last_error := some error }))

/-- The row update `dlq_retry` performs (queuectl.py lines 318-322):
`UPDATE jobs SET state='pending', attempts=0, available_at=?, updated_at=?,
last_error=NULL, finished_at=NULL WHERE id=?` — note there is no condition on
the current state. -/
def dlq_retry (jobs : List Job) (job_id : String) (now : Int) : List Job :=
  updateById jobs job_id (fun j =>
    { j with state := "pending", attempts := 0, available_at := now, updated_at := now,
             last_error := none, finished_at := none })

/-- The whole `dlq retry` CLI command (queuectl.py lines 315-323): run the
update and unconditionally print the success message; no exception is raised
whether or not a row matched. -/
def dlq_retry_cmd (jobs : List Job) (job_id : String) (now : Int) :
    List Job × String :=
  (dlq_retry jobs job_id now, "Requeued: " ++ job_id)

/-- Eligibility predicate of the claim subquery (queuectl.py line 151):
`state='pending' AND available_at <= now`. -/
def eligible (now : Int) (j : Job) : Bool :=
  j.state == "pending" && decide (j.available_at ≤ now)

/-- Strict lexicographic order on `(priority, created_at)`. -/
def lexLT (a b : Job) : Bool :=
  decide (a.priority < b.priority) ||
    (a.priority == b.priority && decide (a.created_at < b.created_at))

/-- Non-strict lexicographic order on `(priority, created_at)`. -/
def lexLE (a b : Job) : Bool :=
  decide (a.priority < b.priority) ||
    (a.priority == b.priority && decide (a.created_at ≤ b.created_at))

/-- Fold that keeps the first row minimal under `lexLT`: a row replaces the
current best only when strictly smaller, so ties keep the earlier row. -/
def pickMin (b : Job) : List Job → Job
  | [] => b
  | j :: rest => pickMin (if lexLT j b then j else b) rest

/-- The subquery `SELECT id FROM jobs WHERE state='pending' AND
available_at <= ? ORDER BY priority ASC, created_at ASC LIMIT 1`
(queuectl.py lines 150-152), returning the selected row. -/
def selectEligible (now : Int) (jobs : List Job) : Option Job :=
  match jobs.filter (eligible now) with
  | [] => none
  | j :: rest => some (pickMin j rest)

/-- The claiming UPDATE's SET clause (queuectl.py line 148):
`state='processing', worker_id=?, started_at=?, updated_at=?` with the
placeholders bound to the worker id and `now`. -/
def claimUpdate (w : String) (now : Int) (j : Job) : Job :=
  { j with state := "processing", worker_id := some w, started_at := some now,
           updated_at := now }

/-- Comparison used by `ORDER BY started_at DESC`: SQL NULL sorts below every
value, so `none` counts as smallest. -/
def startedLT : Option Int → Option Int → Bool
  | none, none => false
  | none, some _ => true
  | some _, none => false
  | some x, some y => decide (x < y)

/-- Fold keeping the first row maximal under `startedLT` on `started_at`. -/
def pickMaxStarted (b : Job) : List Job → Job
  | [] => b
  | j :: rest => pickMaxStarted (if startedLT b.started_at j.started_at then j else b) rest

/-- The read-back query of `atomic_claim_next_job` (queuectl.py lines 158-161):
`SELECT * FROM jobs WHERE worker_id=? AND state='processing' ORDER BY
started_at DESC LIMIT 1`. -/
def readBack (w : String) (jobs : List Job) : Option Job :=
  match jobs.filter (fun j => j.worker_id == some w && j.state == "processing") with
  | [] => none
  | j :: rest => some (pickMaxStarted j rest)

/-- Model of `atomic_claim_next_job(conn, worker_id)` (queuectl.py lines 143-163):
inside one BEGIN IMMEDIATE, update the single selected eligible row to
`processing`; when no row was selected (`rowcount == 0`) return `none`;
otherwise answer the read-back query.  Returns the new table and the
returned row. -/
def atomic_claim_next_job (worker_id : String) (now : Int) (jobs : List Job) :
    List Job × Option Job :=
  match selectEligible now jobs with
  | none => (jobs, none)
  | some sel =>
    let jobs' := updateById jobs sel.id (claimUpdate worker_id now)
    (jobs', readBack worker_id jobs')

/-- Outcome of `run_command(cmd, timeout)` (queuectl.py lines 195-197) as the
worker loop observes it: either a normal return `(exit_code, stdout, stderr)`
or a raised exception rendered as text. -/
inductive RunOutcome where
  | ok (code : Int) (out : String) (err : String)
  | exc (msg : String)
deriving DecidableEq

/-- The execute-and-finalize part of one worker iteration (queuectl.py lines
223-229).  The `try` block runs the command and then the first finalization
(`finish_job_success` on exit 0, else `finish_job_failure` on the stripped
stderr); `except Exception` catches any exception raised inside the whole
`try` block — including one raised by that finalization — and calls
`finish_job_failure` with its text; an exception raised by that handler call
propagates.  The two finalizers are passed in as store operations that may
raise (`Except.error`). -/
def worker_finalize_step {σ : Type} (run : RunOutcome)
    (success_fin : String → Except String σ)
    (failure_fin : String → Except String σ) : Except String σ :=
  let attempt : Except String σ :=
    match run with
    | RunOutcome.exc m => Except.error m
    | RunOutcome.ok code out err =>
        if code = 0 then success_fin out else failure_fin (strip err)
  match attempt with
  | Except.ok s => Except.ok s
  | Except.error m => failure_fin m

/-- One engine operation, tagged with the clock value at which it runs.
`finFail` carries the job id; its snapshot argument is the current row with
that id (the row the invoking worker claimed). -/
inductive Op where
  | enq (spec : JobSpec) (freshId : String) (now : Int)
  | claimOp (w : String) (now : Int)
  | finSucc (job_id : String) (out : String) (now : Int)
  | finFail (job_id : String) (error : String) (now : Int)
  | dlq (job_id : String) (now : Int)

/-- First row with the given id, as `SELECT ... WHERE id=?` would find it. -/
def findById (jobs : List Job) (id : String) : Option Job :=
  jobs.find? (fun j => j.id == id)

/-- Effect of one operation on the jobs table (config fixed at `kv`).  A
`finFail` whose id is absent, or whose backoff computation raises, leaves the
table unchanged (the UPDATE never executes). -/
def step (kv : List (String × String)) (jobs : List Job) : Op → List Job
  | Op.enq spec freshId now => (enqueue_job spec freshId now jobs).1
  | Op.claimOp w now => (atomic_claim_next_job w now jobs).1
  | Op.finSucc job_id out now => finish_job_success jobs job_id out now
  | Op.finFail job_id error now =>
      match findById jobs job_id with
      | none => jobs
      | some j =>
        match finish_job_failure kv jobs j error now with
        | Except.ok jobs' => jobs'
        | Except.error _ => jobs
  | Op.dlq job_id now => dlq_retry jobs job_id now

/-- Run a sequence of operations from a table. -/
def run (kv : List (String × String)) (jobs : List Job) (ops : List Op) : List Job :=
  ops.foldl (step kv) jobs

/-- Side conditions under which the system itself invokes the operations:
an enqueue spec does not override `attempts` or `state` and its id is fresh
(ids are freshly generated UUIDs / the `id` PRIMARY KEY), and a finalization
is invoked only by the worker holding the job, i.e. while the row is in
`processing`. -/
def OpOk (jobs : List Job) : Op → Bool
  | Op.enq spec freshId _ =>
      spec.attempts.isNone && spec.state.isNone &&
        !(jobs.any (fun j => j.id == spec.id.getD freshId))
  | Op.claimOp _ _ => true
  | Op.finSucc job_id _ _ => jobs.all (fun j => j.id == job_id → j.state == "processing")
  | Op.finFail job_id _ _ => jobs.all (fun j => j.id == job_id → j.state == "processing")
  | Op.dlq _ _ => true

/-- Tables reachable from an empty jobs table by operations satisfying
`OpOk`. -/
inductive Reachable (kv : List (String × String)) : List Job → Prop
  | empty : Reachable kv []
  | next {jobs : List Job} {op : Op} :
      Reachable kv jobs → OpOk jobs op = true → Reachable kv (step kv jobs op)

/-- Invariant 3 of the data model for one row: `attempts ≤ max_retries + 1`,
with equality only for a dead row whose final attempt failed (recorded in
`last_error`). -/
def JobInv (j : Job) : Prop :=
  j.attempts ≤ j.max_retries + 1 ∧
    (j.attempts = j.max_retries + 1 → j.state = "dead" ∧ j.last_error ≠ none)

/-- The jobs-table part of the data-model invariants used in the induction:
ids are unique (the `id` PRIMARY KEY) and every row satisfies `JobInv`. -/
def StoreInv (jobs : List Job) : Prop :=
  (jobs.map Job.id).Nodup ∧ ∀ j ∈ jobs, JobInv j

/-- A freshly enqueued row used as the base of concrete test fixtures. -/
def baseJob : Job :=
  { id := "j1", command := "true", state := "pending", attempts := 0, max_retries := 3,
    created_at := 0, updated_at := 0, available_at := 0, priority := 0,
    run_timeout := none, worker_id := none, started_at := none, finished_at := none,
    last_error := none, output := none }

/-- The P6 scenario of the spec: three pending jobs with priorities (5, 0, 5)
created at times (0, 1, 2). -/
def p6jobs : List Job :=
  [{ baseJob with id := "a", priority := 5, created_at := 0 },
   { baseJob with id := "b", priority := 0, created_at := 1 },
   { baseJob with id := "c", priority := 5, created_at := 2 }]

/-- A processing row already held by worker `w` whose `started_at` lies after
the claiming call's clock value. -/
def staleProc : Job :=
  { baseJob with id := "a", state := "processing", worker_id := some "w",
                 started_at := some 10 }

/-- An eligible pending row enqueued alongside `staleProc`. -/
def freshPending : Job := { baseJob with id := "b" }

/-- A completed row, for exercising `dlq_retry` on a non-dead job. -/
def jC3 : Job :=
  { baseJob with id := "c3", state := "completed", attempts := 2, worker_id := some "w",
                 started_at := some 4, finished_at := some 7, output := some "ok" }

/-- A processing row mid-attempt, held by worker `w`. -/
def j4 : Job :=
  { baseJob with id := "j4", state := "processing", worker_id := some "w",
                 started_at := some 3 }

/-- A processing row with one prior attempt, for the failure-path witness. -/
def procJob : Job :=
  { baseJob with id := "p", state := "processing", attempts := 1, worker_id := some "w",
                 started_at := some 5 }

/-- A config table whose backoff base is 3. -/
def kvBase3 : List (String × String) := [("backoff_base", "3")]

/-- An enqueue spec that omits `max_retries` (and everything else). -/
def specNoMR : JobSpec := { command := "c" }

/-- An enqueue spec that overrides `attempts`, as the CLI permits. -/
def spec6 : JobSpec := { command := "c", attempts := some 5, max_retries := some 3 }

/-- An enqueue spec with `run_timeout = 0`. -/
def specRT0 : JobSpec := { command := "c", run_timeout := some 0 }

/-- An enqueue spec with `max_retries = 0`, for the trace witness. -/
def spec0 : JobSpec := { command := "c", max_retries := some 0 }

/-- The row produced by enqueueing `spec0` at time 0 with fresh id `"j1"`. -/
def enqJob : Job :=
  { id := "j1", command := "c", state := "pending", attempts := 0, max_retries := 0,
    created_at := 0, updated_at := 0, available_at := 0, priority := 0,
    run_timeout := none, worker_id := none, started_at := none, finished_at := none,
    last_error := none, output := none }

/-- The row `enqJob` after worker `w` claims it at time 1. -/
def claimedJob : Job :=
  { enqJob with state := "processing", worker_id := some "w", started_at := some 1,
                updated_at := 1 }

/-- The row `claimedJob` after its failure finalization at time 2 exhausts
`max_retries = 0`. -/
def deadJob : Job :=
  { claimedJob with state := "dead", attempts := 1, finished_at := some 2,
                    updated_at := 2, last_error := some "err" }

section Theorems

/-- Reduction of `finish_job_failure` under a parseable `backoff_base`. -/
theorem finish_job_failure_eq (kv : List (String × String)) (jobs : List Job)
    (j : Job) (e : String) (now : Int) (b : Int)
    (hb : pyInt (get_config kv "backoff_base" "2") = some b) :
    finish_job_failure kv jobs j e now =
      Except.ok (if j.attempts + 1 > j.max_retries then
        updateById jobs j.id (fun x =>
          { x with state := "dead", attempts := j.attempts + 1, finished_at := some now,
                   updated_at := now, last_error := some e })
      else
        updateById jobs j.id (fun x =>
          { x with state := "pending", attempts := j.attempts + 1,
                   available_at := now + b ^ (j.attempts + 1),
                   updated_at := now, last_error := some e })) := by
  simp only [finish_job_failure, compute_backoff_delay, hb]
  split <;> rfl

/-- C2: for a processing job with attempts `a` and a parseable `backoff_base`
`b`, `finish_job_failure` computes `a' = a + 1` and `delay = b ^ a'` (integer
exponentiation, no jitter, no cap); when `a' > max_retries` it sets
`state='dead'`, `attempts=a'`, `finished_at=now`, `updated_at=now`,
`last_error=e`, and otherwise sets `state='pending'`, `attempts=a'`,
`available_at = now + delay`, `updated_at=now`, `last_error=e`. -/
theorem finish_job_failure_spec (kv : List (String × String)) (jobs : List Job)
    (j : Job) (e : String) (now : Int) (b : Int)
    (hstate : j.state = "processing")
    (hb : pyInt (get_config kv "backoff_base" "2") = some b) :
    finish_job_failure kv jobs j e now =
      Except.ok (if j.attempts + 1 > j.max_retries then
        updateById jobs j.id (fun x =>
          { x with state := "dead", attempts := j.attempts + 1, finished_at := some now,
                   updated_at := now, last_error := some e })
      else
        updateById jobs j.id (fun x =>
          { x with state := "pending", attempts := j.attempts + 1,
                   available_at := now + b ^ (j.attempts + 1),
                   updated_at := now, last_error := some e })) :=
  finish_job_failure_eq kv jobs j e now b hb

/-- Witness for `finish_job_failure_spec` at a concrete job with one prior
attempt, `max_retries = 3`, and `backoff_base = 3`. -/
theorem finish_job_failure_spec_witness :
    finish_job_failure kvBase3 [procJob] procJob "boom" 100 =
      Except.ok (if procJob.attempts + 1 > procJob.max_retries then
        updateById [procJob] procJob.id (fun x =>
          { x with state := "dead", attempts := procJob.attempts + 1,
                   finished_at := some 100, updated_at := 100, last_error := some "boom" })
      else
        updateById [procJob] procJob.id (fun x =>
          { x with state := "pending", attempts := procJob.attempts + 1,
                   available_at := 100 + (3 : Int) ^ (procJob.attempts + 1),
                   updated_at := 100, last_error := some "boom" })) :=
  finish_job_failure_spec kvBase3 [procJob] procJob "boom" 100 3 rfl (by decide)

/-- C3 (amended): `dlq_retry` requeues the row with the given id regardless of
its current state — it sets `state='pending'`, `attempts=0`,
`available_at=now`, `updated_at=now` and clears `last_error` and
`finished_at` even for a non-dead job, never raising `InvalidTransition` —
and leaves every other row unchanged. -/
theorem dlq_retry_unconditional_requeue (jobs : List Job) (job_id : String) (now : Int)
    (j : Job) (hj : j ∈ jobs) :
    (j.id = job_id →
      ({ j with state := "pending", attempts := 0, available_at := now, updated_at := now,
                last_error := none, finished_at := none } : Job) ∈ dlq_retry jobs job_id now)
    ∧ (j.id ≠ job_id → j ∈ dlq_retry jobs job_id now) := by
  unfold dlq_retry updateById
  constructor
  · intro h
    exact List.mem_map.2 ⟨j, hj, by rw [if_pos h]⟩
  · intro h
    exact List.mem_map.2 ⟨j, hj, by rw [if_neg h]⟩

/-- Witness for `dlq_retry_unconditional_requeue` on a completed (non-dead)
row. -/
theorem dlq_retry_unconditional_requeue_witness :
    (jC3.id = "c3" →
      ({ jC3 with state := "pending", attempts := 0, available_at := 9, updated_at := 9,
                  last_error := none, finished_at := none } : Job) ∈ dlq_retry [jC3] "c3" 9)
    ∧ (jC3.id ≠ "c3" → jC3 ∈ dlq_retry [jC3] "c3" 9) :=
  dlq_retry_unconditional_requeue [jC3] "c3" 9 jC3 (List.mem_singleton.2 rfl)

/-- Counterexample to C3 as stated: `dlq_retry` on a job in state
`'completed'` does not fail with `InvalidTransition` and does not leave the
row unchanged — it rewrites the row to `pending`. -/
theorem dlq_retry_non_dead_changes_state :
    jC3.state = "completed" ∧
      dlq_retry [jC3] "c3" 9 =
        [{ jC3 with
            state := "pending", attempts := 0, available_at := 9, updated_at := 9,
            last_error := none, finished_at := none }] ∧
      ({ jC3 with state := "pending", attempts := 0, available_at := 9, updated_at := 9,
                  last_error := none, finished_at := none } : Job) ≠ jC3 := by
  refine ⟨rfl, rfl, ?_⟩
  decide

/-- C4 (amended): when failure finalization reschedules a job
(`attempts + 1 ≤ max_retries`), it does not clear `worker_id` or
`started_at`: every row of the result keeps the `worker_id` and `started_at`
of its originating row, while the matching row's state becomes `'pending'`;
so a pending job can retain a non-null `worker_id`. -/
theorem finish_job_failure_preserves_worker_id (kv : List (String × String))
    (jobs : List Job) (j : Job) (e : String) (now : Int) (b : Int)
    (hb : pyInt (get_config kv "backoff_base" "2") = some b)
    (hle : j.attempts + 1 ≤ j.max_retries) :
    ∃ jobs', finish_job_failure kv jobs j e now = Except.ok jobs' ∧
      ∀ x ∈ jobs', ∃ y ∈ jobs, x.worker_id = y.worker_id ∧ x.started_at = y.started_at ∧
        (y.id = j.id → x.state = "pending") ∧ (y.id ≠ j.id → x = y) := by
  rw [finish_job_failure_eq kv jobs j e now b hb, if_neg (by omega)]
  refine ⟨_, rfl, ?_⟩
  intro x hx
  unfold updateById at hx
  rcases List.mem_map.1 hx with ⟨y, hy, hxy⟩
  refine ⟨y, hy, ?_⟩
  by_cases hid : y.id = j.id
  · rw [if_pos hid] at hxy
    subst hxy
    exact ⟨rfl, rfl, fun _ => rfl, fun h => absurd hid h⟩
  · rw [if_neg hid] at hxy
    subst hxy
    exact ⟨rfl, rfl, fun h => absurd h hid, fun _ => rfl⟩

/-- Witness for `finish_job_failure_preserves_worker_id` on a concrete
processing row with `attempts = 0 < max_retries = 3`. -/
theorem finish_job_failure_preserves_worker_id_witness :
    ∃ jobs', finish_job_failure initial_config [j4] j4 "boom" 10 = Except.ok jobs' ∧
      ∀ x ∈ jobs', ∃ y ∈ [j4], x.worker_id = y.worker_id ∧ x.started_at = y.started_at ∧
        (y.id = j4.id → x.state = "pending") ∧ (y.id ≠ j4.id → x = y) :=
  finish_job_failure_preserves_worker_id initial_config [j4] j4 "boom" 10 2
    (by decide) (by decide)

/-- Counterexample to C4 as stated: rescheduling a failed processing job
leaves `worker_id = some "w"` and `started_at = some 3` populated on the now
pending row, instead of clearing them to null. -/
theorem finish_job_failure_worker_id_not_cleared :
    finish_job_failure initial_config [j4] j4 "boom" 10 =
      Except.ok [{ j4 with
                    state := "pending", attempts := 1, available_at := 12,
                    updated_at := 10, last_error := some "boom" }] ∧
    ({ j4 with state := "pending", attempts := 1, available_at := 12,
               updated_at := 10, last_error := some "boom" } : Job).worker_id = some "w" ∧
    ({ j4 with state := "pending", attempts := 1, available_at := 12,
               updated_at := 10, last_error := some "boom" } : Job).started_at = some 3 := by
  refine ⟨?_, rfl, rfl⟩
  exact rfl

/-- Rows whose id never matches are untouched by an UPDATE. -/
theorem updateById_of_absent (jobs : List Job) (id : String) (f : Job → Job)
    (h : ∀ j ∈ jobs, j.id ≠ id) : updateById jobs id f = jobs := by
  unfold updateById
  induction jobs with
  | nil => rfl
  | cons a l ih =>
    have ha : a.id ≠ id := h a (List.mem_cons_self a l)
    rw [List.map_cons, if_neg ha, ih (fun j hj => h j (List.mem_cons_of_mem a hj))]

/-- C5 (amended): a job enqueued without `max_retries` is stored with the
hard-coded module constant `DEFAULT_MAX_RETRIES = 3`; `enqueue_job` never
consults the `max_retries_default` config key (it does not read the config
table at all — its result does not mention the config state). -/
theorem enqueue_max_retries_hardcoded (spec : JobSpec) (freshId : String) (now : Int)
    (jobs : List Job) (h : spec.max_retries = none) :
    ∃ j : Job, (enqueue_job spec freshId now jobs).1 = jobs ++ [j] ∧
      j.max_retries = DEFAULT_MAX_RETRIES := by
  refine ⟨_, rfl, ?_⟩
  simp [enqueue_job, h]

/-- Witness for `enqueue_max_retries_hardcoded` on a spec that only carries a
command. -/
theorem enqueue_max_retries_hardcoded_witness :
    ∃ j : Job, (enqueue_job specNoMR "f" 7 []).1 = [] ++ [j] ∧
      j.max_retries = DEFAULT_MAX_RETRIES :=
  enqueue_max_retries_hardcoded specNoMR "f" 7 [] rfl

/-- Counterexample to C5 as stated: after `config set max_retries_default 5`
the config holds `"5"`, yet a job enqueued without `max_retries` is stored
with `max_retries = 3`, not 5. -/
theorem enqueue_ignores_config_max_retries :
    get_config (set_config initial_config "max_retries_default" "5")
        "max_retries_default" "" = "5"
    ∧ (enqueue_job specNoMR "f" 0 []).1.map Job.max_retries = [DEFAULT_MAX_RETRIES]
    ∧ DEFAULT_MAX_RETRIES ≠ 5 := by
  refine ⟨rfl, rfl, ?_⟩
  decide

/-- C7 (amended): in a worker iteration, an exception from the executor is
converted into a `finish_job_failure` call; but a store error raised during
the first finalization — `finish_job_success` on exit 0, or the
`finish_job_failure` inside the `try` on non-zero exit — is also caught and
converted into a further `finish_job_failure` call, rather than propagating;
only an error raised by that handler call itself propagates (the iteration's
outcome is whatever the handler call yields). -/
theorem worker_finalize_step_spec {σ : Type}
    (sfin ffin : String → Except String σ) :
    (∀ m, worker_finalize_step (RunOutcome.exc m) sfin ffin = ffin m)
    ∧ (∀ out err s, sfin out = Except.ok s →
        worker_finalize_step (RunOutcome.ok 0 out err) sfin ffin = Except.ok s)
    ∧ (∀ out err m, sfin out = Except.error m →
        worker_finalize_step (RunOutcome.ok 0 out err) sfin ffin = ffin m)
    ∧ (∀ code out err m, code ≠ 0 → ffin (strip err) = Except.error m →
        worker_finalize_step (RunOutcome.ok code out err) sfin ffin = ffin m) := by
  refine ⟨fun m => rfl, fun out err s hs => ?_, fun out err m hm => ?_,
    fun code out err m hc hm => ?_⟩
  · simp [worker_finalize_step, hs]
  · simp [worker_finalize_step, hm]
  · simp [worker_finalize_step, if_neg hc, hm]

/-- Witness for `worker_finalize_step_spec`: a store error from the success
finalization is handed to the failure finalizer, whose result is the
iteration's outcome. -/
theorem worker_finalize_step_spec_witness :
    worker_finalize_step (RunOutcome.ok 0 "out" "err")
      (fun _ => (Except.error "StoreFatal: disk error" : Except String Nat))
      (fun _ => Except.ok 7) = Except.ok 7 :=
  (worker_finalize_step_spec (fun _ => (Except.error "StoreFatal: disk error" :
      Except String Nat)) (fun _ => Except.ok 7)).2.2.1 "out" "err"
    "StoreFatal: disk error" rfl

/-- Counterexample to C7 as stated: a store error raised by
`finish_job_success` during finalization is swallowed — it is converted into
a `finish_job_failure` call and the iteration ends normally instead of
propagating the store error. -/
theorem finalize_store_error_converted :
    worker_finalize_step (RunOutcome.ok 0 "hello" "")
        (fun _ => (Except.error "StoreFatal" : Except String Nat))
        (fun _ => Except.ok 7) = Except.ok 7 ∧
      (Except.ok 7 : Except String Nat) ≠ Except.error "StoreFatal" :=
  ⟨rfl, fun h => Except.noConfusion h⟩

/-- C8 (amended): the fallback to base 2 applies only when the `backoff_base`
key is absent from the config (the stored default string `"2"` is then
parsed), in which case `finish_job_failure` behaves exactly as with an
explicit `backoff_base = 2`; when the key is present but its value is not
parseable as an integer, `finish_job_failure` raises instead of falling
back. -/
theorem backoff_base_fallback_only_when_absent (kv : List (String × String))
    (jobs : List Job) (j : Job) (e : String) (now : Int) :
    (kv.find? (fun p => p.1 == "backoff_base") = none →
      finish_job_failure kv jobs j e now =
        finish_job_failure [("backoff_base", "2")] jobs j e now)
    ∧ (pyInt (get_config kv "backoff_base" "2") = none →
      ∃ m, finish_job_failure kv jobs j e now = Except.error m) := by
  constructor
  · intro habs
    unfold finish_job_failure get_config
    rw [habs]
    exact rfl
  · intro hmal
    unfold finish_job_failure
    rw [hmal]
    exact ⟨_, rfl⟩

/-- Witness for `backoff_base_fallback_only_when_absent`: an empty config
behaves as base 2, and the stored value `"two"` makes the call raise. -/
theorem backoff_base_fallback_only_when_absent_witness :
    (finish_job_failure [] [j4] j4 "e" 0 =
      finish_job_failure [("backoff_base", "2")] [j4] j4 "e" 0)
    ∧ ∃ m, finish_job_failure [("backoff_base", "two")] [j4] j4 "e" 0 =
        Except.error m :=
  ⟨(backoff_base_fallback_only_when_absent [] [j4] j4 "e" 0).1 rfl,
   (backoff_base_fallback_only_when_absent [("backoff_base", "two")] [j4] j4 "e" 0).2
     (by decide)⟩

/-- Counterexample to C8 as stated: with the malformed stored value `"two"`,
`finish_job_failure` fails instead of computing the delay with base 2. -/
theorem malformed_backoff_base_raises :
    finish_job_failure [("backoff_base", "two")] [baseJob] baseJob "e" 5 =
      Except.error "ValueError: invalid literal for int with base 10" := rfl

/-- C9: the stored `run_timeout` is the value of the key `timeout` when that
value is truthy, else the value of `run_timeout` when truthy, else null; in
particular a job enqueued with `run_timeout = 0` is stored with a null
`run_timeout`. -/
theorem enqueue_run_timeout_truthiness (spec : JobSpec) (freshId : String) (now : Int)
    (jobs : List Job) :
    (∃ j : Job, (enqueue_job spec freshId now jobs).1 = jobs ++ [j] ∧
      j.run_timeout = (if pyTruthy spec.timeout then spec.timeout
        else if pyTruthy spec.run_timeout then spec.run_timeout else none))
    ∧ (enqueue_job specRT0 "f" 0 []).1.map Job.run_timeout = [none] := by
  constructor
  · refine ⟨_, rfl, ?_⟩
    by_cases ht : pyTruthy spec.timeout
    · simp [enqueue_job, pyOr, ht]
    · by_cases hr : pyTruthy spec.run_timeout <;>
        simp [enqueue_job, pyOr, ht, hr]
  · decide

/-- C10: `dlq retry` on an id that matches no row leaves the jobs table
unchanged and still prints the `Requeued` success message (it raises no
error). -/
theorem dlq_retry_missing_id_noop (jobs : List Job) (job_id : String) (now : Int)
    (h : ∀ j ∈ jobs, j.id ≠ job_id) :
    dlq_retry_cmd jobs job_id now = (jobs, "Requeued: " ++ job_id) := by
  unfold dlq_retry_cmd dlq_retry
  rw [updateById_of_absent jobs job_id _ h]

/-- Witness for `dlq_retry_missing_id_noop` on a one-row table and an absent
id. -/
theorem dlq_retry_missing_id_noop_witness :
    dlq_retry_cmd [baseJob] "nope" 3 = ([baseJob], "Requeued: nope") :=
  dlq_retry_missing_id_noop [baseJob] "nope" 3 (by decide)

/-- Counterexample to C1 as stated: with worker `w` already holding a
processing row whose `started_at` (10) lies after the claiming call's clock
(5), the claim call transitions the eligible pending job `"b"` but the
read-back returns the other, ineligible row `"a"` — not the job that was
claimed. -/
theorem atomic_claim_readback_mismatch :
    (atomic_claim_next_job "w" 5 [staleProc, freshPending]).2 = some staleProc ∧
      eligible 5 staleProc = false ∧
      staleProc.id ≠ (claimUpdate "w" 5 freshPending).id := by
  refine ⟨?_, rfl, ?_⟩
  · exact rfl
  · decide

/-- Counterexample to C6 as stated: the enqueue operation accepts a spec that
overrides `attempts` (the CLI passes arbitrary JSON through), so a single
enqueue reaches a state holding a job with `attempts = 5 > max_retries + 1 =
4`. -/
theorem enqueue_attempts_override_breaks_invariant :
    (run initial_config [] [Op.enq spec6 "f" 0]).all
      (fun j => decide (j.attempts ≤ j.max_retries + 1)) = false := by
  decide

/-- The lexicographic comparison is reflexive. -/
theorem lexLE_refl (a : Job) : lexLE a a = true := by
  simp [lexLE]

/-- Strict lexicographic order implies the non-strict one. -/
theorem lexLT_le {a b : Job} (h : lexLT a b = true) : lexLE a b = true := by
  simp only [lexLT, Bool.or_eq_true, Bool.and_eq_true, decide_eq_true_eq,
    beq_iff_eq] at h
  simp only [lexLE, Bool.or_eq_true, Bool.and_eq_true, decide_eq_true_eq,
    beq_iff_eq]
  omega

/-- Totality: when `a` is not strictly below `b`, `b` is at or below `a`. -/
theorem not_lexLT_le {a b : Job} (h : lexLT a b = false) : lexLE b a = true := by
  simp only [lexLT, Bool.or_eq_false_iff, Bool.and_eq_false_iff,
    decide_eq_false_iff_not, beq_eq_false_iff_ne] at h
  simp only [lexLE, Bool.or_eq_true, Bool.and_eq_true, decide_eq_true_eq,
    beq_iff_eq]
  rcases h with ⟨h1, h2⟩
  rcases h2 with h2 | h2
  · omega
  · omega

/-- The lexicographic comparison is transitive. -/
theorem lexLE_trans {a b c : Job} (h1 : lexLE a b = true) (h2 : lexLE b c = true) :
    lexLE a c = true := by
  simp only [lexLE, Bool.or_eq_true, Bool.and_eq_true, decide_eq_true_eq,
    beq_iff_eq] at h1 h2 ⊢
  omega

/-- The kept row of the minimum fold is one of the candidates. -/
theorem pickMin_mem (b : Job) (l : List Job) : pickMin b l ∈ b :: l := by
  induction l generalizing b with
  | nil => exact List.mem_singleton.2 rfl
  | cons j rest ih =>
    show pickMin (if lexLT j b then j else b) rest ∈ b :: j :: rest
    by_cases hlt : lexLT j b = true
    · rw [if_pos hlt]
      exact List.mem_cons_of_mem b (ih j)
    · rw [if_neg hlt]
      rcases List.mem_cons.1 (ih b) with h | h
      · exact List.mem_cons.2 (Or.inl h)
      · exact List.mem_cons_of_mem b (List.mem_cons_of_mem j h)

/-- The kept row of the minimum fold is lexicographically at or below every
candidate. -/
theorem pickMin_le (b : Job) (l : List Job) :
    ∀ x ∈ b :: l, lexLE (pickMin b l) x = true := by
  induction l generalizing b with
  | nil =>
    intro x hx
    rw [List.mem_singleton.1 hx]
    exact lexLE_refl b
  | cons j rest ih =>
    intro x hx
    show lexLE (pickMin (if lexLT j b then j else b) rest) x = true
    by_cases hlt : lexLT j b = true
    · rw [if_pos hlt]
      rcases List.mem_cons.1 hx with h | hx'
      · rw [h]
        exact lexLE_trans (ih j j (List.mem_cons_self j rest)) (lexLT_le hlt)
      · exact ih j x hx'
    · rw [if_neg hlt]
      have hf : lexLT j b = false := by
        cases hv : lexLT j b
        · rfl
        · exact absurd hv hlt
      rcases List.mem_cons.1 hx with h | hx'
      · rw [h]
        exact ih b b (List.mem_cons_self b rest)
      · rcases List.mem_cons.1 hx' with h2 | hx''
        · rw [h2]
          exact lexLE_trans (ih b b (List.mem_cons_self b rest)) (not_lexLT_le hf)
        · exact ih b x (List.mem_cons_of_mem b hx'')

/-- The claim subquery returns nothing exactly when no job is eligible. -/
theorem selectEligible_none_iff (now : Int) (jobs : List Job) :
    selectEligible now jobs = none ↔ ∀ j ∈ jobs, eligible now j = false := by
  unfold selectEligible
  cases hf : jobs.filter (eligible now) with
  | nil =>
    constructor
    · intro _ j hj
      have := List.filter_eq_nil_iff.1 hf j hj
      cases hv : eligible now j
      · rfl
      · exact absurd hv this
    · intro _
      rfl
  | cons a l =>
    constructor
    · intro h
      exact Option.noConfusion h
    · intro hall
      have ha : a ∈ jobs.filter (eligible now) := hf ▸ List.mem_cons_self a l
      have hmem := List.mem_filter.1 ha
      rw [hall a hmem.1] at hmem
      exact absurd hmem.2 (by simp)

/-- A returned row of the claim subquery is an eligible job that is
lexicographically minimal among the eligible jobs. -/
theorem selectEligible_spec {now : Int} {jobs : List Job} {sel : Job}
    (h : selectEligible now jobs = some sel) :
    sel ∈ jobs ∧ eligible now sel = true ∧
      ∀ j ∈ jobs, eligible now j = true → lexLE sel j = true := by
  unfold selectEligible at h
  cases hf : jobs.filter (eligible now) with
  | nil =>
    rw [hf] at h
    exact Option.noConfusion h
  | cons a l =>
    rw [hf] at h
    have hsel : pickMin a l = sel := by
      injection h
    have hmemf : sel ∈ jobs.filter (eligible now) := by
      rw [hf, ← hsel]
      exact pickMin_mem a l
    have hm := List.mem_filter.1 hmemf
    refine ⟨hm.1, hm.2, ?_⟩
    intro j hj hel
    have hjf : j ∈ a :: l := hf ▸ List.mem_filter.2 ⟨hj, hel⟩
    rw [← hsel]
    exact pickMin_le a l j hjf

/-- The DESC comparison is irreflexive. -/
theorem startedLT_irrefl (a : Option Int) : startedLT a a = false := by
  cases a <;> simp [startedLT]

/-- The DESC comparison is transitive. -/
theorem startedLT_trans {a b c : Option Int} (h1 : startedLT a b = true)
    (h2 : startedLT b c = true) : startedLT a c = true := by
  cases a <;> cases b <;> cases c <;> simp_all [startedLT] <;> omega

/-- Chaining a strict step below `b` with `c` at or above `b`. -/
theorem startedLT_trans_not {a b c : Option Int} (h1 : startedLT a b = true)
    (h2 : startedLT c b = false) : startedLT a c = true := by
  cases a <;> cases b <;> cases c <;> simp_all [startedLT] <;> omega

/-- The kept row of the maximum fold is one of the candidates. -/
theorem pickMaxStarted_mem (b : Job) (l : List Job) : pickMaxStarted b l ∈ b :: l := by
  induction l generalizing b with
  | nil => exact List.mem_singleton.2 rfl
  | cons j rest ih =>
    show pickMaxStarted (if startedLT b.started_at j.started_at then j else b) rest ∈
      b :: j :: rest
    by_cases hlt : startedLT b.started_at j.started_at = true
    · rw [if_pos hlt]
      exact List.mem_cons_of_mem b (ih j)
    · rw [if_neg hlt]
      rcases List.mem_cons.1 (ih b) with h | h
      · exact List.mem_cons.2 (Or.inl h)
      · exact List.mem_cons_of_mem b (List.mem_cons_of_mem j h)

/-- No candidate sorts strictly above the kept row of the maximum fold. -/
theorem pickMaxStarted_max (b : Job) (l : List Job) :
    ∀ x ∈ b :: l, startedLT (pickMaxStarted b l).started_at x.started_at = false := by
  induction l generalizing b with
  | nil =>
    intro x hx
    rw [List.mem_singleton.1 hx]
    exact startedLT_irrefl b.started_at
  | cons j rest ih =>
    intro x hx
    show startedLT
      (pickMaxStarted (if startedLT b.started_at j.started_at then j else b) rest).started_at
      x.started_at = false
    by_cases hlt : startedLT b.started_at j.started_at = true
    · rw [if_pos hlt]
      rcases List.mem_cons.1 hx with h | hx'
      · rw [h]
        cases hv : startedLT (pickMaxStarted j rest).started_at b.started_at
        · rfl
        · exfalso
          have hgj := startedLT_trans hv hlt
          have := ih j j (List.mem_cons_self j rest)
          rw [hgj] at this
          exact Bool.noConfusion this
      · exact ih j x hx'
    · have hf : startedLT b.started_at j.started_at = false := by
        cases hv : startedLT b.started_at j.started_at
        · rfl
        · exact absurd hv hlt
      rw [if_neg hlt]
      rcases List.mem_cons.1 hx with h | hx'
      · rw [h]
        exact ih b b (List.mem_cons_self b rest)
      · rcases List.mem_cons.1 hx' with h2 | hx''
        · rw [h2]
          cases hv : startedLT (pickMaxStarted b rest).started_at j.started_at
          · rfl
          · exfalso
            have hgb := startedLT_trans_not hv hf
            have := ih b b (List.mem_cons_self b rest)
            rw [hgb] at this
            exact Bool.noConfusion this
        · exact ih b x (List.mem_cons_of_mem b hx'')

/-- Rows with unique ids are equal when their ids agree. -/
theorem nodup_ids_eq {jobs : List Job} (hnd : (jobs.map Job.id).Nodup)
    {a b : Job} (ha : a ∈ jobs) (hb : b ∈ jobs) (hid : a.id = b.id) : a = b := by
  induction jobs with
  | nil => cases ha
  | cons x l ih =>
    rw [List.map_cons, List.nodup_cons] at hnd
    rcases List.mem_cons.1 ha with h1 | h1 <;> rcases List.mem_cons.1 hb with h2 | h2
    · rw [h1, h2]
    · exfalso
      apply hnd.1
      rw [← h1, hid]
      exact List.mem_map_of_mem Job.id h2
    · exfalso
      apply hnd.1
      rw [← h2, ← hid]
      exact List.mem_map_of_mem Job.id h1
    · exact ih hnd.2 h1 h2

/-- After the claiming UPDATE, when every processing row that worker `w`
already held has `started_at` strictly before `now`, the read-back query
returns exactly the freshly claimed row. -/
theorem readBack_after_claim (w : String) (now : Int) (jobs : List Job) (sel : Job)
    (hnd : (jobs.map Job.id).Nodup)
    (hproc : ∀ j ∈ jobs, j.state = "processing" → j.worker_id = some w →
      startedLT j.started_at (some now) = true)
    (hmem : sel ∈ jobs) (hpend : sel.state = "pending") :
    readBack w (updateById jobs sel.id (claimUpdate w now)) =
      some (claimUpdate w now sel) := by
  have hcpred : ((claimUpdate w now sel).worker_id == some w &&
      (claimUpdate w now sel).state == "processing") = true := by
    simp [claimUpdate]
  have hcmem : claimUpdate w now sel ∈ updateById jobs sel.id (claimUpdate w now) := by
    unfold updateById
    exact List.mem_map.2 ⟨sel, hmem, by rw [if_pos rfl]⟩
  have hfmem : claimUpdate w now sel ∈ (updateById jobs sel.id (claimUpdate w now)).filter
      (fun j => j.worker_id == some w && j.state == "processing") :=
    List.mem_filter.2 ⟨hcmem, hcpred⟩
  have hother : ∀ x ∈ (updateById jobs sel.id (claimUpdate w now)).filter
      (fun j => j.worker_id == some w && j.state == "processing"),
      x = claimUpdate w now sel ∨ startedLT x.started_at (some now) = true := by
    intro x hx
    have hx' := List.mem_filter.1 hx
    rcases List.mem_map.1 hx'.1 with ⟨y, hy, hxy⟩
    by_cases hid : y.id = sel.id
    · left
      have hysel : y = sel := nodup_ids_eq hnd hy hmem hid
      rw [if_pos hid] at hxy
      rw [← hxy, hysel]
    · right
      rw [if_neg hid] at hxy
      have hp := hx'.2
      rw [← hxy] at hp
      simp only [Bool.and_eq_true, beq_iff_eq] at hp
      rw [← hxy]
      exact hproc y hy hp.2 hp.1
  unfold readBack
  cases hf : (updateById jobs sel.id (claimUpdate w now)).filter
      (fun j => j.worker_id == some w && j.state == "processing") with
  | nil =>
    rw [hf] at hfmem
    cases hfmem
  | cons f r =>
    rw [hf] at hfmem hother
    have hm := pickMaxStarted_mem f r
    have hmax := pickMaxStarted_max f r
    rcases hother _ hm with heq | hlt
    · show some (pickMaxStarted f r) = some (claimUpdate w now sel)
      rw [heq]
    · exfalso
      have hnc := hmax (claimUpdate w now sel) hfmem
      have hcs : (claimUpdate w now sel).started_at = some now := rfl
      rw [hcs] at hnc
      rw [hlt] at hnc
      exact Bool.noConfusion hnc

/-- Eligibility depends only on `state` and `available_at`. -/
theorem eligible_map (now : Int) (g : Job → Job)
    (hg : ∀ x : Job, (g x).state = x.state ∧ (g x).available_at = x.available_at ∧
      (g x).priority = x.priority ∧ (g x).created_at = x.created_at) :
    ∀ j : Job, eligible now (g j) = eligible now j := by
  intro j
  unfold eligible
  rw [(hg j).1, (hg j).2.1]

/-- The minimum fold depends only on the comparison results. -/
theorem pickMin_map (g : Job → Job)
    (hlex : ∀ a b : Job, lexLT (g a) (g b) = lexLT a b) (b : Job) (l : List Job) :
    pickMin (g b) (l.map g) = g (pickMin b l) := by
  induction l generalizing b with
  | nil => rfl
  | cons j rest ih =>
    show pickMin (if lexLT (g j) (g b) then g j else g b) (rest.map g) =
      g (pickMin (if lexLT j b then j else b) rest)
    rw [hlex j b]
    by_cases hlt : lexLT j b = true
    · rw [if_pos hlt, if_pos hlt]
      exact ih j
    · rw [if_neg hlt, if_neg hlt]
      exact ih b

/-- The claim subquery's choice is invariant under any rewriting of the rows
that preserves `state`, `available_at`, `priority` and `created_at` — in
particular it does not depend on `updated_at` or `id`. -/
theorem selectEligible_map (now : Int) (jobs : List Job) (g : Job → Job)
    (hg : ∀ x : Job, (g x).state = x.state ∧ (g x).available_at = x.available_at ∧
      (g x).priority = x.priority ∧ (g x).created_at = x.created_at) :
    selectEligible now (jobs.map g) = (selectEligible now jobs).map g := by
  have hlex : ∀ a b : Job, lexLT (g a) (g b) = lexLT a b := by
    intro a b
    unfold lexLT
    rw [(hg a).2.2.1, (hg b).2.2.1, (hg a).2.2.2, (hg b).2.2.2]
  unfold selectEligible
  rw [List.filter_map]
  have hfil : jobs.filter (eligible now ∘ g) = jobs.filter (eligible now) :=
    List.filter_congr (fun x _ => eligible_map now g hg x)
  rw [hfil]
  cases hf : jobs.filter (eligible now) with
  | nil => rfl
  | cons a l =>
    show some (pickMin (g a) (l.map g)) = some (g (pickMin a l))
    rw [pickMin_map g hlex]

/-- C1 (amended): provided job ids are unique (the `id` PRIMARY KEY) and
every processing row worker `w` already holds has `started_at` strictly
before `now` (in particular whenever `w` holds no processing row, as in the
worker loop), `atomic_claim_next_job` returns `none` exactly when no job has
`state='pending'` and `available_at ≤ now`, leaving the table unchanged;
otherwise it picks an eligible job lexicographically minimal in
`(priority ASC, created_at ASC)`, transitions exactly that row to
`state='processing'` with `worker_id = w` and `started_at = updated_at =
now`, and returns that row; and its selection is invariant under changes to
fields other than `state`, `available_at`, `priority`, `created_at` — in
particular it never orders by `updated_at` or `id`.  (Without the
`started_at` proviso the read-back can return a different row:
see the counterexample.) -/
theorem atomic_claim_next_job_spec (w : String) (now : Int) (jobs : List Job)
    (hnd : (jobs.map Job.id).Nodup)
    (hproc : ∀ j ∈ jobs, j.state = "processing" → j.worker_id = some w →
      startedLT j.started_at (some now) = true) :
    ((atomic_claim_next_job w now jobs).2 = none ↔ ∀ j ∈ jobs, eligible now j = false)
    ∧ ((atomic_claim_next_job w now jobs).2 = none →
        (atomic_claim_next_job w now jobs).1 = jobs)
    ∧ (∀ r, (atomic_claim_next_job w now jobs).2 = some r →
        ∃ sel, sel ∈ jobs ∧ eligible now sel = true ∧
          (∀ j ∈ jobs, eligible now j = true → lexLE sel j = true) ∧
          r = claimUpdate w now sel ∧
          (atomic_claim_next_job w now jobs).1 =
            updateById jobs sel.id (claimUpdate w now))
    ∧ (∀ g : Job → Job,
        (∀ x : Job, (g x).state = x.state ∧ (g x).available_at = x.available_at ∧
          (g x).priority = x.priority ∧ (g x).created_at = x.created_at) →
        selectEligible now (jobs.map g) = (selectEligible now jobs).map g) := by
  cases hsel : selectEligible now jobs with
  | none =>
    have hall := (selectEligible_none_iff now jobs).1 hsel
    have h2 : atomic_claim_next_job w now jobs = (jobs, none) := by
      unfold atomic_claim_next_job
      rw [hsel]
    refine ⟨?_, ?_, ?_, ?_⟩
    · rw [h2]
      exact ⟨fun _ => hall, fun _ => rfl⟩
    · intro _
      rw [h2]
    · intro r hr
      rw [h2] at hr
      exact Option.noConfusion hr
    · intro g hg
      rw [selectEligible_map now jobs g hg, hsel]
  | some sel =>
    obtain ⟨hm, hel, hmin⟩ := selectEligible_spec hsel
    have hpend : sel.state = "pending" := by
      unfold eligible at hel
      simp only [Bool.and_eq_true, beq_iff_eq, decide_eq_true_eq] at hel
      exact hel.1
    have hrb := readBack_after_claim w now jobs sel hnd hproc hm hpend
    have h2 : atomic_claim_next_job w now jobs =
        (updateById jobs sel.id (claimUpdate w now), some (claimUpdate w now sel)) := by
      unfold atomic_claim_next_job
      rw [hsel]
      show (updateById jobs sel.id (claimUpdate w now),
        readBack w (updateById jobs sel.id (claimUpdate w now))) = _
      rw [hrb]
    refine ⟨?_, ?_, ?_, ?_⟩
    · rw [h2]
      constructor
      · intro h
        exact Option.noConfusion h
      · intro hall
        rw [hall sel hm] at hel
        exact Bool.noConfusion hel
    · intro h
      rw [h2] at h
      exact Option.noConfusion h
    · intro r hr
      rw [h2] at hr
      have hre : claimUpdate w now sel = r := by
        injection hr
      exact ⟨sel, hm, hel, hmin, hre.symm, by rw [h2]⟩
    · intro g hg
      rw [selectEligible_map now jobs g hg, hsel]

/-- Witness for `atomic_claim_next_job_spec` on the P6 store: with priorities
(5, 0, 5), the first claim cannot return none. -/
theorem atomic_claim_next_job_spec_witness :
    ((atomic_claim_next_job "w" 10 p6jobs).2 = none ↔
      ∀ j ∈ p6jobs, eligible 10 j = false) ∧
    (atomic_claim_next_job "w" 10 p6jobs).2 ≠ none := by
  have h := atomic_claim_next_job_spec "w" 10 p6jobs (by decide) (by decide)
  refine ⟨h.1, ?_⟩
  intro hn
  have := h.1.1 hn
  have hb := this { baseJob with id := "b", priority := 0, created_at := 1 } (by decide)
  rw [show eligible 10 { baseJob with id := "b", priority := 0, created_at := 1 } = true
    from by decide] at hb
  exact Bool.noConfusion hb

/-- An UPDATE keyed on `id` that does not rewrite ids preserves the id
column. -/
theorem ids_updateById (jobs : List Job) (id : String) (f : Job → Job)
    (hf : ∀ x, (f x).id = x.id) :
    (updateById jobs id f).map Job.id = jobs.map Job.id := by
  unfold updateById
  rw [List.map_map]
  apply List.map_congr_left
  intro x _
  show Job.id (if x.id = id then f x else x) = x.id
  by_cases h : x.id = id
  · rw [if_pos h]
    exact hf x
  · rw [if_neg h]

/-- Invariant `JobInv` survives an UPDATE whose rewritten rows satisfy it. -/
theorem jobInv_updateById {jobs : List Job} (hinv : ∀ j ∈ jobs, JobInv j)
    {id : String} {f : Job → Job}
    (hf : ∀ y ∈ jobs, y.id = id → JobInv (f y)) :
    ∀ x ∈ updateById jobs id f, JobInv x := by
  intro x hx
  unfold updateById at hx
  rcases List.mem_map.1 hx with ⟨y, hy, hxy⟩
  by_cases h : y.id = id
  · rw [if_pos h] at hxy
    rw [← hxy]
    exact hf y hy h
  · rw [if_neg h] at hxy
    rw [← hxy]
    exact hinv y hy

/-- One step of any engine operation invoked under its `OpOk` side condition
preserves the store invariant. -/
theorem storeInv_step (kv : List (String × String)) (jobs : List Job) (op : Op)
    (hinv : StoreInv jobs) (hok : OpOk jobs op = true) :
    StoreInv (step kv jobs op) := by
  obtain ⟨hnd, hj⟩ := hinv
  cases op with
  | enq spec freshId now =>
    simp only [OpOk, Bool.and_eq_true, Bool.not_eq_true', List.any_eq_false,
      Option.isNone_iff_eq_none, beq_iff_eq] at hok
    obtain ⟨⟨ha, hs⟩, hfresh⟩ := hok
    show StoreInv (enqueue_job spec freshId now jobs).1
    constructor
    · rw [show (enqueue_job spec freshId now jobs).1.map Job.id =
          jobs.map Job.id ++ [spec.id.getD freshId] from by
        unfold enqueue_job
        rw [List.map_append]
        rfl]
      rw [List.nodup_append]
      refine ⟨hnd, List.nodup_singleton _, ?_⟩
      intro a haa hab
      rcases List.mem_map.1 haa with ⟨y, hy, hya⟩
      rw [List.mem_singleton.1 hab] at hya
      exact hfresh y hy hya
    · intro x hx
      unfold enqueue_job at hx
      rcases List.mem_append.1 hx with hx | hx
      · exact hj x hx
      · rw [List.mem_singleton.1 hx]
        constructor
        · show spec.attempts.getD 0 ≤ spec.max_retries.getD DEFAULT_MAX_RETRIES + 1
          rw [ha]
          exact Nat.zero_le _
        · intro habs
          rw [ha] at habs
          exact absurd habs.symm (Nat.succ_ne_zero _)
  | claimOp w now =>
    show StoreInv (atomic_claim_next_job w now jobs).1
    unfold atomic_claim_next_job
    cases hsel : selectEligible now jobs with
    | none => exact ⟨hnd, hj⟩
    | some sel =>
      obtain ⟨hm, hel, _⟩ := selectEligible_spec hsel
      have hpend : sel.state = "pending" := by
        unfold eligible at hel
        simp only [Bool.and_eq_true, beq_iff_eq, decide_eq_true_eq] at hel
        exact hel.1
      constructor
      · rw [ids_updateById jobs sel.id (claimUpdate w now) (fun x => rfl)]
        exact hnd
      · apply jobInv_updateById hj
        intro y hy hid
        have hysel : y = sel := nodup_ids_eq hnd hy hm hid
        rw [hysel]
        obtain ⟨hle, heq⟩ := hj sel hm
        refine ⟨hle, ?_⟩
        intro habs
        rw [(heq habs).1] at hpend
        exact absurd hpend (by decide)
  | finSucc job_id out now =>
    simp only [OpOk, List.all_eq_true, decide_eq_true_eq, beq_iff_eq] at hok
    show StoreInv (finish_job_success jobs job_id out now)
    unfold finish_job_success
    constructor
    · rw [ids_updateById jobs job_id (fun j =>
        { j with state := "completed", finished_at := some now, updated_at := now,
                 output := some out }) (fun x => rfl)]
      exact hnd
    · apply jobInv_updateById hj
      intro y hy hid
      have hproc := hok y hy hid
      obtain ⟨hle, heq⟩ := hj y hy
      refine ⟨hle, ?_⟩
      intro habs
      rw [(heq habs).1] at hproc
      exact absurd hproc (by decide)
  | finFail job_id error now =>
    simp only [OpOk, List.all_eq_true, decide_eq_true_eq, beq_iff_eq] at hok
    show StoreInv (match findById jobs job_id with
      | none => jobs
      | some j =>
        match finish_job_failure kv jobs j error now with
        | Except.ok jobs' => jobs'
        | Except.error _ => jobs)
    cases hfind : findById jobs job_id with
    | none => exact ⟨hnd, hj⟩
    | some j0 =>
      have hj0mem : j0 ∈ jobs := List.mem_of_find?_eq_some hfind
      have hj0id : j0.id = job_id := by
        have := List.find?_some hfind
        exact beq_iff_eq.1 this
      have hj0proc : j0.state = "processing" := hok j0 hj0mem hj0id
      have hj0le : j0.attempts ≤ j0.max_retries := by
        obtain ⟨hle, heq⟩ := hj j0 hj0mem
        rcases Nat.lt_or_ge j0.attempts (j0.max_retries + 1) with h | h
        · omega
        · exfalso
          have : j0.attempts = j0.max_retries + 1 := by omega
          rw [(heq this).1] at hj0proc
          exact absurd hj0proc (by decide)
      show StoreInv (match finish_job_failure kv jobs j0 error now with
        | Except.ok jobs' => jobs'
        | Except.error _ => jobs)
      cases hpy : pyInt (get_config kv "backoff_base" "2") with
      | none =>
        rw [show finish_job_failure kv jobs j0 error now =
            Except.error "ValueError: invalid literal for int with base 10" from by
          unfold finish_job_failure
          rw [hpy]]
        exact ⟨hnd, hj⟩
      | some b =>
        by_cases hgt : j0.attempts + 1 > j0.max_retries
        · rw [show finish_job_failure kv jobs j0 error now =
              Except.ok (updateById jobs j0.id (fun x =>
                { x with state := "dead", attempts := j0.attempts + 1,
                         finished_at := some now, updated_at := now,
                         last_error := some error })) from by
            rw [finish_job_failure_eq kv jobs j0 error now b hpy, if_pos hgt]]
          show StoreInv (updateById jobs j0.id (fun x =>
            { x with state := "dead", attempts := j0.attempts + 1,
                     finished_at := some now, updated_at := now,
                     last_error := some error }))
          constructor
          · rw [ids_updateById jobs j0.id (fun x =>
              { x with state := "dead", attempts := j0.attempts + 1,
                       finished_at := some now, updated_at := now,
                       last_error := some error }) (fun x => rfl)]
            exact hnd
          · apply jobInv_updateById hj
            intro y hy hid
            have hyj0 : y = j0 := nodup_ids_eq hnd hy hj0mem hid
            refine ⟨?_, ?_⟩
            · show j0.attempts + 1 ≤ y.max_retries + 1
              rw [hyj0]
              omega
            · intro _
              exact ⟨rfl, fun hcon => Option.noConfusion hcon⟩
        · rw [show finish_job_failure kv jobs j0 error now =
              Except.ok (updateById jobs j0.id (fun x =>
                { x with state := "pending", attempts := j0.attempts + 1,
                         available_at := now + b ^ (j0.attempts + 1),
                         updated_at := now, last_error := some error })) from by
            rw [finish_job_failure_eq kv jobs j0 error now b hpy, if_neg hgt]]
          show StoreInv (updateById jobs j0.id (fun x =>
            { x with state := "pending", attempts := j0.attempts + 1,
                     available_at := now + b ^ (j0.attempts + 1),
                     updated_at := now, last_error := some error }))
          constructor
          · rw [ids_updateById jobs j0.id (fun x =>
              { x with state := "pending", attempts := j0.attempts + 1,
                       available_at := now + b ^ (j0.attempts + 1),
                       updated_at := now, last_error := some error }) (fun x => rfl)]
            exact hnd
          · apply jobInv_updateById hj
            intro y hy hid
            have hyj0 : y = j0 := nodup_ids_eq hnd hy hj0mem hid
            refine ⟨?_, ?_⟩
            · show j0.attempts + 1 ≤ y.max_retries + 1
              rw [hyj0]
              omega
            · intro habs
              exfalso
              rw [hyj0] at habs
              have habs' : j0.attempts + 1 = j0.max_retries + 1 := habs
              omega
  | dlq job_id now =>
    show StoreInv (dlq_retry jobs job_id now)
    unfold dlq_retry
    constructor
    · rw [ids_updateById jobs job_id (fun j =>
        { j with state := "pending", attempts := 0, available_at := now,
                 updated_at := now, last_error := none, finished_at := none })
        (fun x => rfl)]
      exact hnd
    · apply jobInv_updateById hj
      intro y hy hid
      refine ⟨?_, ?_⟩
      · show 0 ≤ y.max_retries + 1
        exact Nat.zero_le _
      · intro habs
        exact absurd habs.symm (Nat.succ_ne_zero _)

/-- C6 (amended): in every store reachable by sequences of enqueue, claim,
finalize-success, finalize-failure and dlq-retry operations in which enqueue
specs do not override `attempts` or `state` and carry fresh ids, and in which
finalizations are invoked only while their job is in `processing` (as the
worker loop does), every job satisfies `attempts ≤ max_retries + 1`, and
`attempts = max_retries + 1` only for a job in state `'dead'` whose final,
failing attempt recorded its error in `last_error`.  (Without those
restrictions the invariant is breakable: see the counterexample.) -/
theorem reachable_attempts_invariant (kv : List (String × String)) (jobs : List Job)
    (h : Reachable kv jobs) :
    ∀ j ∈ jobs, j.attempts ≤ j.max_retries + 1 ∧
      (j.attempts = j.max_retries + 1 → j.state = "dead" ∧ j.last_error ≠ none) := by
  have hinv : StoreInv jobs := by
    induction h with
    | empty => exact ⟨List.nodup_nil, fun j hj => absurd hj (List.not_mem_nil j)⟩
    | next hr hok ih => exact storeInv_step _ _ _ ih hok
  exact hinv.2

/-- Witness for `reachable_attempts_invariant`: the trace enqueue (with
`max_retries = 0`), claim, failure-finalize reaches a store holding exactly
`deadJob`, for which the invariant conjunction holds. -/
theorem reachable_attempts_invariant_witness :
    deadJob.attempts ≤ deadJob.max_retries + 1 ∧
      (deadJob.attempts = deadJob.max_retries + 1 →
        deadJob.state = "dead" ∧ deadJob.last_error ≠ none) := by
  have h1 : Reachable initial_config [enqJob] :=
    @Reachable.next initial_config [] (Op.enq spec0 "j1" 0) Reachable.empty (by decide)
  have h2 : Reachable initial_config [claimedJob] :=
    @Reachable.next initial_config [enqJob] (Op.claimOp "w" 1) h1 (by decide)
  have h3 : Reachable initial_config [deadJob] :=
    @Reachable.next initial_config [claimedJob] (Op.finFail "j1" "err" 2) h2 (by decide)
  exact reachable_attempts_invariant initial_config [deadJob] h3 deadJob
    (List.mem_singleton.2 rfl)

end Theorems

end QueueCtl
